/-
Verification of the move-selection engine (alphabeta.py, iterativeDeepening.py).

The rules engine (python-chess `Board`/`Move`) is an external collaborator;
it is modelled as an abstract structure `Engine` of query functions over
opaque position and move types, exactly the capability set the source uses.
Positions are threaded functionally: `push b m` yields the successor
position.  The per-search transposition table (a Python dict) is threaded
explicitly as an association list.  Recursion in `quiescence` and `negamax`
is expressed with an explicit fuel argument; the source's termination
arguments (q_depth bounded by QUIESCENCE_MAX_DEPTH, ply bounded by MAX_PLY)
become fuel-stabilisation theorems, and the canonical wrappers instantiate
the fuel at exactly those bounds.
-/
import Mathlib

set_option maxHeartbeats 1600000
set_option synthInstance.maxSize 512

namespace Engine2025

instance exceptDecEq {ε α : Type} [DecidableEq ε] [DecidableEq α] :
    DecidableEq (Except ε α) := fun x y =>
  match x, y with
  | .ok a, .ok b =>
    if h : a = b then isTrue (by rw [h]) else isFalse (by simp [h])
  | .error a, .error b =>
    if h : a = b then isTrue (by rw [h]) else isFalse (by simp [h])
  | .ok _, .error _ => isFalse (by simp)
  | .error _, .ok _ => isFalse (by simp)

/-- Constants from alphabeta.py. -/
def INF : Int := 10 ^ 12

def MATE_SCORE : Int := 900000

def MAX_PLY : Nat := 100

def TT_EXACT : Nat := 0

def TT_LOWER : Nat := 1

def TT_UPPER : Nat := 2

def CONTEMPT : Int := 20

def SCORE_TT_MOVE : Int := 20000000

def SCORE_PROMOTION_BASE : Int := 8000000

def SCORE_CAPTURE_BASE : Int := 6000000

def SCORE_CHECK : Int := 300000

def QUIESCENCE_MAX_DEPTH : Nat := 4

/-- Piece types of the external rules engine (chess.PAWN .. chess.KING). -/
inductive PieceType where
  | pawn
  | knight
  | bishop
  | rook
  | queen
  | king
deriving DecidableEq

/-- Piece values for MVV-LVA, the `_PV` table of alphabeta.py. -/
def PV : PieceType → Int
  | .pawn => 100
  | .knight => 320
  | .bishop => 330
  | .rook => 500
  | .queen => 900
  | .king => 0

/-- The capability set the search core requires from the external rules
engine and evaluator (spec section 6).  `push` returns the successor
position instead of mutating. -/
structure Engine (Pos Move : Type) where
  legalMoves : Pos → List Move
  push : Pos → Move → Pos
  turn : Pos → Bool
  isCheck : Pos → Bool
  isCheckmate : Pos → Bool
  isStalemate : Pos → Bool
  isInsufficientMaterial : Pos → Bool
  canClaimFiftyMoves : Pos → Bool
  canClaimThreefoldRepetition : Pos → Bool
  isCapture : Pos → Move → Bool
  isEnPassant : Pos → Move → Bool
  givesCheck : Pos → Move → Bool
  pieceTypeAt : Pos → Nat → Option PieceType
  fromSquare : Move → Nat
  toSquare : Move → Nat
  promotion : Move → Option PieceType
  boardFen : Pos → String
  castlingRights : Pos → Nat
  epSquare : Pos → Option Nat
  evaluate : Pos → Int
  uci : Move → String
  nullMove : Move
  pieceCount : Pos → Nat
  fullmoveNumber : Pos → Nat

variable {Pos Move : Type}

/-- Position key for the search transposition table (`_tt_key`):
(board_fen, turn, castling_rights, ep_square).  Deliberately excludes the
halfmove clock. -/
abbrev PosKey := String × Bool × Nat × Option Nat

def tt_key (E : Engine Pos Move) (b : Pos) : PosKey :=
  (E.boardFen b, E.turn b, E.castlingRights b, E.epSquare b)

/-- A search transposition table entry (`_Entry`). -/
structure SearchEntry (Move : Type) where
  depth : Int
  flag : Nat
  score : Int
  move : Option Move
deriving DecidableEq

/-- The per-search transposition table: a Python dict modelled as an
association list where assignment prepends and lookup takes the first hit. -/
abbrev SearchTT (Move : Type) := List (PosKey × SearchEntry Move)

def ttGet (stt : SearchTT Move) (k : PosKey) : Option (SearchEntry Move) :=
  match stt with
  | [] => none
  | (k', e) :: rest => if k' = k then some e else ttGet rest k

def ttSet (stt : SearchTT Move) (k : PosKey) (e : SearchEntry Move) : SearchTT Move :=
  (k, e) :: stt

def ttKeys (stt : SearchTT Move) : List PosKey :=
  stt.map Prod.fst

/-- MVV-LVA capture scoring (`_mvv_lva`). -/
def mvv_lva (E : Engine Pos Move) (b : Pos) (m : Move) : Int :=
  if !(E.isCapture b m) then 0
  else
    let vVal : Int :=
      match E.pieceTypeAt b (E.toSquare m) with
      | none => if E.isEnPassant b m then PV .pawn else 0
      | some pt => PV pt
    let aVal : Int :=
      match E.pieceTypeAt b (E.fromSquare m) with
      | some pt => PV pt
      | none => 0
    10000 * vVal - aVal

/-- The additive move-ordering score (the `_score` closure of `_order_moves`). -/
def move_score (E : Engine Pos Move) [DecidableEq Move] (b : Pos)
    (tt_move : Option Move) (m : Move) : Int :=
  (match tt_move with
   | some t => if m = t then SCORE_TT_MOVE else 0
   | none => 0)
  + (match E.promotion m with
     | some pt => SCORE_PROMOTION_BASE + PV pt
     | none => 0)
  + (if E.isCapture b m then SCORE_CAPTURE_BASE + mvv_lva E b m else 0)
  + (if E.givesCheck b m then SCORE_CHECK else 0)

/-- Stable descending insertion used to model Python's stable
`list.sort(key=f, reverse=True)`. -/
def insDesc {α : Type} (f : α → Int) (x : α) : List α → List α
  | [] => [x]
  | y :: ys => if f x ≥ f y then x :: y :: ys else y :: insDesc f x ys

def sortDescBy {α : Type} (f : α → Int) : List α → List α
  | [] => []
  | x :: xs => insDesc f x (sortDescBy f xs)

/-- Move ordering (`_order_moves`): stable sort by `move_score`, descending. -/
def order_moves (E : Engine Pos Move) [DecidableEq Move] (b : Pos)
    (moves : List Move) (tt_move : Option Move) : List Move :=
  sortDescBy (move_score E b tt_move) moves

/-- Fast draw detection (`_is_draw`). -/
def is_draw (E : Engine Pos Move) (b : Pos) : Bool :=
  E.isStalemate b || E.isInsufficientMaterial b ||
    E.canClaimFiftyMoves b || E.canClaimThreefoldRepetition b

/-- Side-to-move-signed static evaluation, the `color * evaluate(board, table)`
pattern of the source. -/
def colorEval (E : Engine Pos Move) (b : Pos) : Int :=
  (if E.turn b then 1 else -1) * E.evaluate b

/-- SEE-style filter on a capture: skip when the attacker outvalues the
victim by more than 200 (alphabeta.py lines 166-172). -/
def seeSkip (E : Engine Pos Move) (b : Pos) (m : Move) : Bool :=
  match E.pieceTypeAt b (E.fromSquare m), E.pieceTypeAt b (E.toSquare m) with
  | some a, some v => decide (PV v + 200 < PV a)
  | _, _ => false

/-- Tactical-move generation of quiescence when not in check: captures that
pass the SEE filter, plus queen promotions. -/
def tacticalFilter (E : Engine Pos Move) [DecidableEq Move] (b : Pos) : List Move :=
  (E.legalMoves b).filter fun m =>
    if E.isCapture b m then !(seeSkip E b m)
    else decide (E.promotion m = some PieceType.queen)

/-- The move loop of `quiescence` (lines 191-202), parameterised by the
recursive call. -/
def qloopGen (E : Engine Pos Move) (rec : Pos → Int → Int → Nat → Int) :
    Pos → List Move → Int → Int → Nat → Int
  | _, [], alpha, _, _ => alpha
  | b, m :: rest, alpha, beta, q_depth =>
    let score := - rec (E.push b m) (-beta) (-alpha) (q_depth + 1)
    if score ≥ beta then beta
    else qloopGen E rec b rest (if score > alpha then score else alpha) beta q_depth

/-- One step of `quiescence` (lines 127-202), parameterised by the recursive
call used inside the move loop. -/
def quiescenceBody (E : Engine Pos Move) [DecidableEq Move]
    (rec : Pos → Int → Int → Nat → Int)
    (b : Pos) (alpha beta : Int) (q_depth : Nat) : Int :=
  if q_depth ≥ QUIESCENCE_MAX_DEPTH then colorEval E b
  else
    let inCheck := E.isCheck b
    if !inCheck && is_draw E b then -CONTEMPT
    else if inCheck then
      let tactical := E.legalMoves b
      if tactical.isEmpty then -MATE_SCORE + q_depth
      else qloopGen E rec b tactical alpha beta q_depth
    else
      let standPat := colorEval E b
      if standPat ≥ beta then beta
      else
        let alpha1 := if standPat > alpha then standPat else alpha
        if standPat < alpha1 - 1000 then alpha1
        else
          let tactical := tacticalFilter E b
          if tactical.isEmpty then alpha1
          else qloopGen E rec b (sortDescBy (mvv_lva E b) tactical) alpha1 beta q_depth

/-- Fuel-indexed quiescence search (`quiescence`).  At fuel 0 the function
returns the same value as the q_depth guard; the canonical wrapper uses fuel
`QUIESCENCE_MAX_DEPTH - q_depth`, which the stabilisation theorem shows is
always enough. -/
def quiescenceF (E : Engine Pos Move) [DecidableEq Move] :
    Nat → Pos → Int → Int → Nat → Int
  | 0, b, _, _, _ => colorEval E b
  | fuel + 1, b, alpha, beta, q_depth =>
    quiescenceBody E (fun b2 a2 b3 q2 => quiescenceF E fuel b2 a2 b3 q2)
      b alpha beta q_depth

/-- Quiescence search at its canonical fuel. -/
def quiescence (E : Engine Pos Move) [DecidableEq Move]
    (b : Pos) (alpha beta : Int) (q_depth : Nat) : Int :=
  quiescenceF E (QUIESCENCE_MAX_DEPTH - q_depth) b alpha beta q_depth

/-- The move loop of `negamax` (lines 263-285), parameterised by the recursive
call; returns (best_score, best_move, search_tt). -/
def searchMovesGen (E : Engine Pos Move)
    (rec : Pos → Int → Int → Int → SearchTT Move → Nat → Int × SearchTT Move) :
    Pos → Int → List Move → Int → Int → Int → Option Move → SearchTT Move → Nat →
      Int × Option Move × SearchTT Move
  | _, _, [], _, _, bestScore, bestMove, stt, _ => (bestScore, bestMove, stt)
  | b, depth, m :: rest, alpha, beta, bestScore, bestMove, stt, ply =>
    let b2 := E.push b m
    let nextDepth := if E.isCheck b2 then depth - 1 + 1 else depth - 1
    let r := rec b2 nextDepth (-beta) (-alpha) stt (ply + 1)
    let score := -r.1
    let bestScore2 := if score > bestScore then score else bestScore
    let bestMove2 := if score > bestScore then some m else bestMove
    let alpha2 := if bestScore2 > alpha then bestScore2 else alpha
    if alpha2 ≥ beta then (bestScore2, bestMove2, r.2)
    else searchMovesGen E rec b depth rest alpha2 beta bestScore2 bestMove2 r.2 ply

/-- The body of `negamax` after the terminal guards and the transposition
probe (lines 254-304): quiescence delegation at the horizon, the move loop,
the no-legal-moves fallback, and the store.  `origAlpha`/`origBeta` are the
pre-probe window used to classify the stored bound. -/
def negamaxRestGen (E : Engine Pos Move) [DecidableEq Move]
    (rec : Pos → Int → Int → Int → SearchTT Move → Nat → Int × SearchTT Move)
    (b : Pos) (depth : Int) (alpha beta origAlpha origBeta : Int)
    (tt_move : Option Move) (stt : SearchTT Move) (ply : Nat) : Int × SearchTT Move :=
  if depth ≤ 0 then (quiescence E b alpha beta 0, stt)
  else
    let ms := order_moves E b (E.legalMoves b) tt_move
    match ms with
    | [] =>
      if E.isCheckmate b then (-MATE_SCORE + ply, stt) else (-CONTEMPT, stt)
    | m :: rest =>
      let r := searchMovesGen E rec b depth (m :: rest) alpha beta (-INF) none stt ply
      let bestScore := r.1
      let flag :=
        if bestScore ≤ origAlpha then TT_UPPER
        else if bestScore ≥ origBeta then TT_LOWER
        else TT_EXACT
      (bestScore,
        ttSet r.2.2 (tt_key E b) ⟨depth, flag, bestScore, r.2.1⟩)

/-- One step of `negamax` (lines 215-304): the ply guard, the draw and
terminal checks, the transposition probe, then `negamaxRestGen`;
parameterised by the recursive call. -/
def negamaxBody (E : Engine Pos Move) [DecidableEq Move]
    (rec : Pos → Int → Int → Int → SearchTT Move → Nat → Int × SearchTT Move)
    (b : Pos) (depth alpha beta : Int) (stt : SearchTT Move) (ply : Nat) :
    Int × SearchTT Move :=
  if ply ≥ MAX_PLY then (colorEval E b, stt)
  else if E.canClaimThreefoldRepetition b || E.canClaimFiftyMoves b then
    (-CONTEMPT, stt)
  else if E.isCheckmate b then (-MATE_SCORE + ply, stt)
  else if is_draw E b then (-CONTEMPT, stt)
  else
    let key := tt_key E b
    match ttGet stt key with
    | some tte =>
      if tte.depth ≥ depth then
        if tte.flag = TT_EXACT then (tte.score, stt)
        else
          let alpha2 := if tte.flag = TT_LOWER then max alpha tte.score else alpha
          let beta2 := if tte.flag = TT_UPPER then min beta tte.score else beta
          if alpha2 ≥ beta2 then (tte.score, stt)
          else negamaxRestGen E rec b depth alpha2 beta2 alpha beta tte.move stt ply
      else negamaxRestGen E rec b depth alpha beta alpha beta tte.move stt ply
    | none => negamaxRestGen E rec b depth alpha beta alpha beta none stt ply

/-- Fuel-indexed negamax (`negamax`).  At fuel 0 the function returns the
same value as the ply guard; the canonical wrapper uses fuel
`MAX_PLY - ply`. -/
def negamaxF (E : Engine Pos Move) [DecidableEq Move] :
    Nat → Pos → Int → Int → Int → SearchTT Move → Nat → Int × SearchTT Move
  | 0, b, _, _, _, stt, _ => (colorEval E b, stt)
  | fuel + 1, b, depth, alpha, beta, stt, ply =>
    negamaxBody E (fun b2 d2 a2 b3 s2 p2 => negamaxF E fuel b2 d2 a2 b3 s2 p2)
      b depth alpha beta stt ply

/-- Negamax at its canonical fuel. -/
def negamax (E : Engine Pos Move) [DecidableEq Move]
    (b : Pos) (depth alpha beta : Int) (stt : SearchTT Move) (ply : Nat) :
    Int × SearchTT Move :=
  negamaxF E (MAX_PLY - ply) b depth alpha beta stt ply

/-- The continuation negamax runs after the transposition probe decided not
to cut off: `negamaxRestGen` with the recursive call at the canonical fuel of
ply + 1. -/
def negamaxCont (E : Engine Pos Move) [DecidableEq Move]
    (b : Pos) (depth : Int) (alpha beta origAlpha origBeta : Int)
    (tt_move : Option Move) (stt : SearchTT Move) (ply : Nat) : Int × SearchTT Move :=
  negamaxRestGen E
    (fun b2 d2 a2 b3 s2 p2 => negamaxF E (MAX_PLY - ply - 1) b2 d2 a2 b3 s2 p2)
    b depth alpha beta origAlpha origBeta tt_move stt ply

/-- The root-move loop of `pick_move` (lines 357-375): aspiration search with
full-window re-search on failure; beta is never updated at the root and no
cutoff occurs. -/
def rootLoop (E : Engine Pos Move) [DecidableEq Move] (b : Pos) (depth beta : Int) :
    List Move → Int → Int → Move → SearchTT Move → Move
  | [], _, _, bestMove, _ => bestMove
  | m :: rest, alpha, bestScore, bestMove, stt =>
    let r1 := negamax E (E.push b m) (depth - 1) (-beta) (-alpha) stt 1
    let score1 := -r1.1
    let r2 :=
      if (score1 ≤ alpha ∨ score1 ≥ beta) ∧ depth ≥ 4 then
        let rr := negamax E (E.push b m) (depth - 1) (-INF) INF r1.2 1
        (-rr.1, rr.2)
      else (score1, r1.2)
    let score := r2.1
    let bestScore2 := if score > bestScore then score else bestScore
    let bestMove2 := if score > bestScore then m else bestMove
    let alpha2 := if score > alpha then score else alpha
    rootLoop E b depth beta rest alpha2 bestScore2 bestMove2 r2.2

/-- The restricted legal-move list of `pick_move` (lines 324-328).  Python's
`if allowed_moves:` is falsy both for None and for the empty list, so an
empty restriction list leaves the legal moves unrestricted. -/
def restrictedLegal (E : Engine Pos Move) (b : Pos)
    (allowed_moves : Option (List Move)) : List Move :=
  match allowed_moves with
  | none => E.legalMoves b
  | some al =>
    if al.isEmpty then E.legalMoves b
    else
      let allowUci := al.map E.uci
      (E.legalMoves b).filter fun m => allowUci.contains (E.uci m)

/-- Root search driver (`pick_move`). -/
def pick_move (E : Engine Pos Move) [DecidableEq Move] (b : Pos) (depth : Int)
    (allowed_moves : Option (List Move)) (prev_best : Option Move) : Move :=
  match restrictedLegal E b allowed_moves with
  | [] => E.nullMove
  | [m] => m
  | m0 :: m1 :: rest =>
    let legal := m0 :: m1 :: rest
    let stt0 : SearchTT Move := []
    let start :=
      match prev_best with
      | some pb =>
        if pb ≠ E.nullMove ∧ pb ∈ legal ∧ depth ≥ 4 then
          let r := negamax E (E.push b pb) (depth - 1) (-INF) INF stt0 1
          let prevScore := -r.1
          (prevScore - 50, prevScore + 50, r.2)
        else (-INF, INF, stt0)
      | none => (-INF, INF, stt0)
    rootLoop E b depth start.2.1 (order_moves E b legal prev_best)
      start.1 (-INF) m0 start.2.2

/-! ## Exact rational time values

Wall-clock durations and budgets (Python floats) are modelled by exact
rationals.  `Q2` is an unreduced fraction with a positive denominator; its
arithmetic avoids gcd normalisation so that concrete controller runs can be
evaluated by the kernel, and `Q2.toRat` interprets a value in ℚ for the
symbolic inequality proofs. -/

structure Q2 where
  num : Int
  den : Int
  dpos : 0 < den

def Q2.ofInt (n : Int) : Q2 := ⟨n, 1, Int.one_pos⟩

def Q2.ofFrac (n d : Int) : Q2 :=
  if h : 0 < d then ⟨n, d, h⟩ else ⟨n, 1, Int.one_pos⟩

instance (n : Nat) : OfNat Q2 n := ⟨Q2.ofInt n⟩

def Q2.add (x y : Q2) : Q2 :=
  ⟨x.num * y.den + y.num * x.den, x.den * y.den, mul_pos x.dpos y.dpos⟩

def Q2.neg (x : Q2) : Q2 := ⟨-x.num, x.den, x.dpos⟩

def Q2.mul (x y : Q2) : Q2 :=
  ⟨x.num * y.num, x.den * y.den, mul_pos x.dpos y.dpos⟩

def Q2.div (x y : Q2) : Q2 :=
  if h : 0 < y.num then ⟨x.num * y.den, x.den * y.num, mul_pos x.dpos h⟩
  else if h2 : y.num < 0 then
    ⟨-(x.num * y.den), x.den * (-y.num), mul_pos x.dpos (by omega)⟩
  else ⟨0, 1, Int.one_pos⟩

def Q2.le (x y : Q2) : Prop := x.num * y.den ≤ y.num * x.den

def Q2.lt (x y : Q2) : Prop := x.num * y.den < y.num * x.den

instance : Add Q2 := ⟨Q2.add⟩

instance : Neg Q2 := ⟨Q2.neg⟩

instance : Sub Q2 := ⟨fun x y => Q2.add x (Q2.neg y)⟩

instance : Mul Q2 := ⟨Q2.mul⟩

instance : Div Q2 := ⟨Q2.div⟩

instance : LE Q2 := ⟨Q2.le⟩

instance : LT Q2 := ⟨Q2.lt⟩

instance (x y : Q2) : Decidable (x ≤ y) := Int.decLe _ _

instance (x y : Q2) : Decidable (x < y) := Int.decLt _ _

/-- Python `max(a, b)`: returns `a` on ties. -/
def qmax (x y : Q2) : Q2 := if x < y then y else x

/-- Python `min(a, b)`: returns `a` on ties. -/
def qmin (x y : Q2) : Q2 := if y < x then y else x

/-- The exact rational a `Q2` fraction denotes. -/
def Q2.toRat (x : Q2) : ℚ := (x.num : ℚ) / (x.den : ℚ)

/-! ## Iterative deepening controller (iterativeDeepening.py)

A duration oracle `dur : Nat → Q2` gives the wall time consumed by the
blocking `pick_move` call at each depth (the only operation that consumes
time in the model), and the running `now` is `time.time() - start_time`. -/

def SAFETY_MARGIN : Q2 := Q2.ofFrac 88 100

def MIN_MOVE_TIME : Q2 := Q2.ofInt 1

def PANIC_THRESHOLD : Q2 := Q2.ofInt 5

def PANIC_DEPTH : Nat := 4

def INCREMENT_USAGE : Q2 := Q2.ofFrac 65 100

def MAX_TIME_PER_MOVE : Q2 := Q2.ofFrac 20 100

def PRED_INFLATION : Q2 := Q2.ofFrac 135 100

def HARD_FACTOR : Q2 := Q2.ofInt 10

def MIN_SLACK_TO_START : Q2 := Q2.ofFrac 75 100

def PV_STABILITY_LENIENT : Q2 := Q2.ofFrac 70 100

def PV_STABILITY_STRICT : Q2 := Q2.ofFrac 55 100

def MAX_RATIO_CAP : Q2 := Q2.ofInt 24

def BASELINE_RATIO_OPENING : Q2 := Q2.ofFrac 45 10

def BASELINE_RATIO_MIDDLEGAME : Q2 := Q2.ofFrac 65 10

def BASELINE_RATIO_ENDGAME : Q2 := Q2.ofFrac 55 10

/-- Conservative time budget per move (`calculate_time_allocation`). -/
def calculate_time_allocation (E : Engine Pos Move) (remaining_time increment : Q2)
    (b : Pos) (moves_to_go : Option Q2) : Q2 :=
  if remaining_time < PANIC_THRESHOLD then
    qmax MIN_MOVE_TIME (remaining_time * Q2.ofFrac 25 100)
  else
    let pc := E.pieceCount b
    let mn := E.fullmoveNumber b
    let mtg : Q2 :=
      match moves_to_go with
      | some v => v
      | none =>
        if 28 ≤ pc ∧ mn ≤ 15 then 35
        else if 20 ≤ pc then 25
        else if 10 ≤ pc then 20
        else 15
    let baseTime := remaining_time / mtg
    let incrementBonus := increment * INCREMENT_USAGE
    let phaseMultiplier : Q2 :=
      if 28 ≤ pc ∧ mn ≤ 15 then Q2.ofFrac 6 10
      else if 20 ≤ pc then Q2.ofFrac 12 10
      else if 10 ≤ pc then Q2.ofInt 1
      else Q2.ofFrac 8 10
    let totalTime := baseTime * phaseMultiplier + incrementBonus
    let totalTime := qmin totalTime (remaining_time * MAX_TIME_PER_MOVE)
    let totalTime := qmin totalTime (remaining_time - 2)
    qmax MIN_MOVE_TIME totalTime

/-- Phase-based conservative branching baseline (`_phase_baseline_ratio`). -/
def phaseBaselineRatio (E : Engine Pos Move) (b : Pos) : Q2 :=
  let pc := E.pieceCount b
  let mn := E.fullmoveNumber b
  if 28 ≤ pc ∧ mn ≤ 15 then BASELINE_RATIO_OPENING
  else if 20 ≤ pc then BASELINE_RATIO_MIDDLEGAME
  else BASELINE_RATIO_ENDGAME

/-- Predicted time of the next depth (`_predict_next_depth_time`).  The list
holds (depth, time) pairs with the most recent depth first, which matches the
dict's sorted key order since depths are recorded increasingly. -/
def predict_next_depth_time (E : Engine Pos Move)
    (completedTimesRev : List (Nat × Q2)) (b : Pos) : Q2 :=
  match completedTimesRev with
  | [] => 0
  | [(_, t1)] =>
    t1 * qmin (phaseBaselineRatio E b) MAX_RATIO_CAP * PRED_INFLATION
  | (_, t1) :: (_, t2) :: rest =>
    let raw1 := t1 / qmax t2 (Q2.ofFrac 1 1000)
    let raw :=
      match rest with
      | (_, t3) :: _ => qmax raw1 (t2 / qmax t3 (Q2.ofFrac 1 1000))
      | [] => raw1
    t1 * qmin (qmax (phaseBaselineRatio E b) raw) MAX_RATIO_CAP * PRED_INFLATION

/-- Result of one Controller call, with ghost observations: the wall time at
return, the argument log of every `pick_move` invocation (depth, prev_best
argument passed), and the completed-depth records. -/
structure IDRun (Move : Type) where
  move : Move
  elapsed : Q2
  log : List (Nat × Option Move)
  completed : List (Nat × Move × Q2)

/-- Loop exit of the Controller (lines 243-257): the move of the deepest
completed depth, else the fallback first legal / allowed move, else null. -/
def idFinish (E : Engine Pos Move) (b : Pos) (allowed_moves : Option (List Move))
    (now : Q2) (completedRev : List (Nat × Move × Q2))
    (log : List (Nat × Option Move)) : IDRun Move :=
  match completedRev with
  | (_, m, _) :: _ => { move := m, elapsed := now, log := log, completed := completedRev }
  | [] =>
    let legalList := match allowed_moves with
      | none => E.legalMoves b
      | some al => al
    { move := match legalList with
        | [] => E.nullMove
        | m :: _ => m,
      elapsed := now, log := log, completed := [] }

/-- Lookup of `completed_moves[d][0]`. -/
def completedMoveAt (completedRev : List (Nat × Move × Q2)) (d : Nat) : Option Move :=
  (completedRev.find? fun e => e.1 = d).map fun e => e.2.1

/-- Pre-start gating for the next depth (lines 161-193): `none` means break
out of the loop, `some pv` means proceed with the updated PV-stability
counter. -/
def idGate (E : Engine Pos Move) [DecidableEq Move] (b : Pos) (budget now slack : Q2)
    (completedRev : List (Nat × Move × Q2)) (bestMove prevBestMove : Option Move)
    (pvStability : Nat) : Option Nat :=
  match completedRev with
  | [] => some pvStability
  | (_, _, lastTime) :: _ =>
    let predicted := predict_next_depth_time E (completedRev.map fun e => (e.1, e.2.2)) b
    if lastTime * HARD_FACTOR > slack then none
    else
      let pv :=
        match bestMove, prevBestMove with
        | some bm, some pb => if bm = pb then pvStability + 1 else 0
        | _, _ => 0
      let totalIfNext := now + predicted
      let fracOfBudget := totalIfNext / qmax budget (Q2.ofFrac 1 1000)
      if 2 ≤ pv ∧ fracOfBudget > PV_STABILITY_STRICT then none
      else if pv = 1 ∧ fracOfBudget > PV_STABILITY_LENIENT then none
      else if totalIfNext > budget then none
      else some pv

/-- The while loop of `iterativeDeepen` (lines 146-241).  The fuel counts the
remaining loop iterations (`maxD + 1 - depth`); because the Python loop runs
`depth` from 1 to `max_depth`, the initial fuel `maxD` is exact. -/
def idGo (E : Engine Pos Move) [DecidableEq Move] (dur : Nat → Q2) (b : Pos)
    (allowed_moves : Option (List Move)) (budget : Q2) (maxD : Nat) :
    Nat → Nat → Q2 → List (Nat × Move × Q2) → Option Move → Option Move → Nat →
      List (Nat × Option Move) → IDRun Move
  | 0, _, now, comp, _, _, _, log => idFinish E b allowed_moves now comp log
  | fuel + 1, d, now, comp, best, prevB, pv, log =>
    if d > maxD then idFinish E b allowed_moves now comp log
    else
      let slack := budget * SAFETY_MARGIN - now
      if slack ≤ 0 then idFinish E b allowed_moves now comp log
      else if slack < MIN_SLACK_TO_START then idFinish E b allowed_moves now comp log
      else
        match idGate E b budget now slack comp best prevB pv with
        | none => idFinish E b allowed_moves now comp log
        | some pv2 =>
          let mv := pick_move E b (Int.ofNat d) allowed_moves none
          let log2 := (d, (none : Option Move)) :: log
          let depthTime := dur d
          let now2 := now + depthTime
          if mv ≠ E.nullMove then
            let comp2 := (d, mv, depthTime) :: comp
            if d = 3 ∧ (completedMoveAt comp2 1 = some mv ∨ completedMoveAt comp2 2 = some mv) then
              { move := mv, elapsed := now2, log := log2, completed := comp2 }
            else
              idGo E dur b allowed_moves budget maxD fuel (d + 1) now2 comp2
                (some mv) best pv2 log2
          else idFinish E b allowed_moves now2 comp log2

/-- Iterative Deepening Controller (`iterativeDeepen`). -/
def iterativeDeepen (E : Engine Pos Move) [DecidableEq Move] (dur : Nat → Q2)
    (b : Pos) (allowed_moves : Option (List Move))
    (remaining_time increment : Q2) (max_depth : Option Nat) : IDRun Move :=
  let budget0 := calculate_time_allocation E remaining_time increment b none
  if remaining_time < PANIC_THRESHOLD then
    idGo E dur b allowed_moves (qmin budget0 (remaining_time * Q2.ofFrac 3 10)) PANIC_DEPTH
      PANIC_DEPTH 1 0 [] none none 0 []
  else
    let maxD :=
      match max_depth with
      | some md => md
      | none =>
        let pc := E.pieceCount b
        let mn := E.fullmoveNumber b
        if 28 ≤ pc ∧ mn ≤ 15 then 8
        else if 20 ≤ pc then 12
        else if 10 ≤ pc then 16
        else 20
    idGo E dur b allowed_moves budget0 maxD maxD 1 0 [] none none 0 []

/-! ## Mutable-board model with a fallible evaluator

For the frame-effect claim the in-place board mutation of the source is made
explicit: `MBoard` is the current position together with the stack of
positions saved by `push`; `pop` restores the top of the stack.  The
evaluator may raise (Python exceptions such as an interrupt or an internal
error surface inside `evaluate`); an `Except.error` result propagates
without unwinding, exactly as Python propagates an exception with no
try/finally around the push/pop pairs. -/

structure MBoard (Pos : Type) where
  cur : Pos
  hist : List Pos
deriving DecidableEq

def mpush (E : Engine Pos Move) (mb : MBoard Pos) (m : Move) : MBoard Pos :=
  ⟨E.push mb.cur m, mb.cur :: mb.hist⟩

def mpop (mb : MBoard Pos) : Option (MBoard Pos) :=
  match mb.hist with
  | [] => none
  | p :: h => some ⟨p, h⟩

/-- Side-signed evaluation through the fallible evaluator. -/
def colorEvalS (E : Engine Pos Move) (evalE : Pos → Except Unit Int)
    (mb : MBoard Pos) : Except Unit Int × MBoard Pos :=
  match evalE mb.cur with
  | .error e => (.error e, mb)
  | .ok v => (.ok ((if E.turn mb.cur then 1 else -1) * v), mb)

/-- The move loop of `quiescence` over the mutable board: push, recurse, pop.
A child exception propagates with the board exactly as the child left it —
the pending pop never runs. -/
def qloopS (E : Engine Pos Move)
    (rec : MBoard Pos → Int → Int → Nat → Except Unit Int × MBoard Pos) :
    MBoard Pos → List Move → Int → Int → Nat → Except Unit Int × MBoard Pos
  | mb, [], alpha, _, _ => (.ok alpha, mb)
  | mb, m :: rest, alpha, beta, q_depth =>
    let mb1 := mpush E mb m
    match rec mb1 (-beta) (-alpha) (q_depth + 1) with
    | (.error e, mb2) => (.error e, mb2)
    | (.ok s, mb2) =>
      let score := -s
      match mpop mb2 with
      | none => (.error (), mb2)
      | some mb3 =>
        if score ≥ beta then (.ok beta, mb3)
        else qloopS E rec mb3 rest (if score > alpha then score else alpha) beta q_depth

/-- Quiescence over the mutable board with the fallible evaluator; the same
control flow as `quiescenceF`. -/
def quiescenceSF (E : Engine Pos Move) [DecidableEq Move]
    (evalE : Pos → Except Unit Int) :
    Nat → MBoard Pos → Int → Int → Nat → Except Unit Int × MBoard Pos
  | 0, mb, _, _, _ => colorEvalS E evalE mb
  | fuel + 1, mb, alpha, beta, q_depth =>
    if q_depth ≥ QUIESCENCE_MAX_DEPTH then colorEvalS E evalE mb
    else
      let inCheck := E.isCheck mb.cur
      if !inCheck && is_draw E mb.cur then (.ok (-CONTEMPT), mb)
      else if inCheck then
        let tactical := E.legalMoves mb.cur
        if tactical.isEmpty then (.ok (-MATE_SCORE + q_depth), mb)
        else
          qloopS E (fun mb2 a2 b2 q2 => quiescenceSF E evalE fuel mb2 a2 b2 q2)
            mb tactical alpha beta q_depth
      else
        match evalE mb.cur with
        | .error e => (.error e, mb)
        | .ok v =>
          let standPat := (if E.turn mb.cur then 1 else -1) * v
          if standPat ≥ beta then (.ok beta, mb)
          else
            let alpha1 := if standPat > alpha then standPat else alpha
            if standPat < alpha1 - 1000 then (.ok alpha1, mb)
            else
              let tactical := tacticalFilter E mb.cur
              if tactical.isEmpty then (.ok alpha1, mb)
              else
                qloopS E (fun mb2 a2 b2 q2 => quiescenceSF E evalE fuel mb2 a2 b2 q2)
                  mb (sortDescBy (mvv_lva E mb.cur) tactical) alpha1 beta q_depth

/-- Quiescence over the mutable board at the canonical fuel. -/
def quiescenceS (E : Engine Pos Move) [DecidableEq Move]
    (evalE : Pos → Except Unit Int) (mb : MBoard Pos)
    (alpha beta : Int) (q_depth : Nat) : Except Unit Int × MBoard Pos :=
  quiescenceSF E evalE (QUIESCENCE_MAX_DEPTH - q_depth) mb alpha beta q_depth

/-! ## Game-theoretic forced mate -/

/-- The side to move forces checkmate within `n` plies: with `n ≥ 1` there is
a legal move that either delivers immediate checkmate, or (using two of the
`n` plies) leaves the opponent at least one reply while every reply lets the
mover force mate within `n - 2` plies. -/
def matesInPlies (E : Engine Pos Move) : Nat → Pos → Bool
  | 0, _ => false
  | 1, b => (E.legalMoves b).any fun m => E.isCheckmate (E.push b m)
  | n + 2, b =>
    (E.legalMoves b).any fun m =>
      let b2 := E.push b m
      E.isCheckmate b2 ||
        (!(E.legalMoves b2).isEmpty &&
          (E.legalMoves b2).all fun r => matesInPlies E n (E.push b2 r))

/-! ## Concrete finite rules engines used as witnesses and counterexamples

Positions and moves are natural numbers; `push` follows explicit finite
tables.  `epSquare p = some p` makes transposition keys distinguish
positions without string computations. -/

/-- A default engine every concrete instance below overrides: no legal moves,
all status flags false, evaluation 0, null move 0. -/
def baseE : Engine Nat Nat where
  legalMoves := fun _ => []
  push := fun p _ => p + 1
  turn := fun _ => true
  isCheck := fun _ => false
  isCheckmate := fun _ => false
  isStalemate := fun _ => false
  isInsufficientMaterial := fun _ => false
  canClaimFiftyMoves := fun _ => false
  canClaimThreefoldRepetition := fun _ => false
  isCapture := fun _ _ => false
  isEnPassant := fun _ _ => false
  givesCheck := fun _ _ => false
  pieceTypeAt := fun _ _ => none
  fromSquare := fun _ => 0
  toSquare := fun _ => 0
  promotion := fun _ => none
  boardFen := fun _ => "x"
  castlingRights := fun _ => 0
  epSquare := fun p => some p
  evaluate := fun _ => 0
  uci := fun m => Nat.repr m
  nullMove := 0
  pieceCount := fun _ => 20
  fullmoveNumber := fun _ => 1

/-- Engine with a single quiet legal move at position 0 (used for the
search-versus-cache and probe instances). -/
def quietE : Engine Nat Nat :=
  { baseE with legalMoves := fun p => if p = 0 then [1] else [] }

/-- Engine whose position 0 admits a claimable threefold repetition. -/
def claimE : Engine Nat Nat :=
  { baseE with
    legalMoves := fun p => if p = 0 then [1] else []
    canClaimThreefoldRepetition := fun p => p = 0
    evaluate := fun _ => 7 }

/-- Mate-in-1 engine where the mating position also has a claimable draw:
0 --1--> 1 is checkmate, and a threefold repetition is claimable at 0. -/
def mate1ClaimE : Engine Nat Nat :=
  { baseE with
    legalMoves := fun p => if p = 0 then [1] else []
    isCheckmate := fun p => p = 1
    isCheck := fun p => p = 1
    canClaimThreefoldRepetition := fun p => p = 0 }

/-- Clean forced mate in 3: the single line 0 → 1 → 2 → 3 with 3 checkmate. -/
def mate3E : Engine Nat Nat :=
  { baseE with
    legalMoves := fun p => if p ≤ 2 then [1] else []
    turn := fun p => p % 2 = 0
    isCheckmate := fun p => p = 3
    isCheck := fun p => p = 3 }

/-- Clean mate in 1: 0 --1--> 1 checkmate. -/
def mate1E : Engine Nat Nat :=
  { baseE with
    legalMoves := fun p => if p = 0 then [1] else []
    isCheckmate := fun p => p = 1
    isCheck := fun p => p = 1 }

/-- Move-ordering engine: at position 0, move 1 is quiet and move 2 is a
pawn-takes-queen promotion to a queen (White pawn b7 takes a queen on a8 and
promotes: squares 49 → 56). -/
def promoE : Engine Nat Nat :=
  { baseE with
    legalMoves := fun p => if p = 0 then [1, 2] else []
    isCapture := fun _ m => m = 2
    fromSquare := fun m => if m = 2 then 49 else 0
    toSquare := fun m => if m = 2 then 56 else 1
    pieceTypeAt := fun _ sq =>
      if sq = 49 then some PieceType.pawn
      else if sq = 56 then some PieceType.queen
      else none
    promotion := fun m => if m = 2 then some PieceType.queen else none }

/-- Capture engine for the frame-effect instance: position 0 has the single
capture 0 --1--> 1. -/
def capE : Engine Nat Nat :=
  { baseE with
    legalMoves := fun p => if p = 0 then [1] else []
    isCapture := fun p m => p = 0 ∧ m = 1 }

/-- Evaluator that raises on every position except 0. -/
def failEval : Nat → Except Unit Int :=
  fun p => if p = 0 then .ok 0 else .error ()

/-- Engine with two legal moves 5 and 7 at position 0 (restriction tests);
children are terminal checkmates so root searches stay shallow. -/
def twoE : Engine Nat Nat :=
  { baseE with
    legalMoves := fun p => if p = 0 then [5, 7] else []
    push := fun p m => p + m
    isCheckmate := fun p => p ≠ 0 }

/-- Controller engine: one legal move 7 at position 0. -/
def oneE : Engine Nat Nat :=
  { baseE with legalMoves := fun p => if p = 0 then [7] else [] }

/-! ## Basic lemmas about move ordering and the root loop -/

theorem mem_insDesc {α : Type} (f : α → Int) (x a : α) :
    ∀ l : List α, a ∈ insDesc f x l ↔ a = x ∨ a ∈ l := by
  intro l
  induction l with
  | nil => simp [insDesc]
  | cons y ys ih =>
    by_cases h : f x ≥ f y
    · simp [insDesc, h]
    · simp only [insDesc, if_neg h, List.mem_cons, ih]
      tauto

theorem mem_sortDescBy {α : Type} (f : α → Int) (a : α) :
    ∀ l : List α, a ∈ sortDescBy f l ↔ a ∈ l := by
  intro l
  induction l with
  | nil => simp [sortDescBy]
  | cons x xs ih => simp [sortDescBy, mem_insDesc, ih]

theorem mem_order_moves (E : Engine Pos Move) [DecidableEq Move] (b : Pos)
    (moves : List Move) (tt_move : Option Move) (a : Move) :
    a ∈ order_moves E b moves tt_move ↔ a ∈ moves := by
  simp [order_moves, mem_sortDescBy]

/-- Every value `rootLoop` can return is either the incoming best move or a
member of the remaining move list. -/
theorem rootLoop_mem_of (E : Engine Pos Move) [DecidableEq Move] (b : Pos)
    (depth beta : Int) (S : List Move) :
    ∀ (ms : List Move) (alpha bestScore : Int) (bm : Move) (stt : SearchTT Move),
      bm ∈ S → (∀ x ∈ ms, x ∈ S) →
      rootLoop E b depth beta ms alpha bestScore bm stt ∈ S := by
  intro ms
  induction ms with
  | nil => intro alpha bs bm stt hbm _; simpa [rootLoop] using hbm
  | cons m rest ih =>
    intro alpha bs bm stt hbm hsub
    simp only [rootLoop]
    apply ih
    · split <;> split <;>
        first
        | exact hsub m (List.mem_cons_self m rest)
        | exact hbm
    · intro x hx
      exact hsub x (List.mem_cons_of_mem m hx)

theorem restrictedLegal_subset (E : Engine Pos Move) (b : Pos)
    (allowed_moves : Option (List Move)) (x : Move) :
    x ∈ restrictedLegal E b allowed_moves → x ∈ E.legalMoves b := by
  intro hx
  cases allowed_moves with
  | none => simpa [restrictedLegal] using hx
  | some al =>
    by_cases h : al.isEmpty
    · simpa [restrictedLegal, h] using hx
    · simp only [restrictedLegal, if_neg h] at hx
      exact (List.mem_filter.mp hx).1

theorem pick_move_empty (E : Engine Pos Move) [DecidableEq Move] (b : Pos)
    (depth : Int) (allowed_moves : Option (List Move)) (prev_best : Option Move)
    (hl : restrictedLegal E b allowed_moves = []) :
    pick_move E b depth allowed_moves prev_best = E.nullMove := by
  simp [pick_move, hl]

theorem pick_move_mem (E : Engine Pos Move) [DecidableEq Move] (b : Pos)
    (depth : Int) (allowed_moves : Option (List Move)) (prev_best : Option Move)
    (h : restrictedLegal E b allowed_moves ≠ []) :
    pick_move E b depth allowed_moves prev_best ∈ restrictedLegal E b allowed_moves := by
  rcases hl : restrictedLegal E b allowed_moves with _ | ⟨m0, ml⟩
  · exact absurd hl h
  · rcases ml with _ | ⟨m1, rest⟩
    · simp [pick_move, hl]
    · simp only [pick_move, hl]
      apply rootLoop_mem_of
      · exact List.mem_cons_self m0 (m1 :: rest)
      · intro x hx
        exact (mem_order_moves E b (m0 :: m1 :: rest) prev_best x).mp hx

/-- C4 (amended): `pick_move` returns the null sentinel when the effective
legal-move list is empty, and otherwise a member of that list (hence a legal
move); the effective list intersects the legal moves with the restriction
only when the restriction is present AND non-empty — Python's
`if allowed_moves:` treats an empty restriction list like an absent one, so
an empty restriction does not force the null sentinel. -/
theorem C4_pick_move_restriction (E : Engine Pos Move) [DecidableEq Move]
    (b : Pos) (depth : Int) (allowed_moves : Option (List Move))
    (prev_best : Option Move) :
    (restrictedLegal E b allowed_moves = [] →
      pick_move E b depth allowed_moves prev_best = E.nullMove)
    ∧ (restrictedLegal E b allowed_moves ≠ [] →
        pick_move E b depth allowed_moves prev_best ∈ restrictedLegal E b allowed_moves)
    ∧ (E.nullMove ∉ E.legalMoves b →
        (pick_move E b depth allowed_moves prev_best = E.nullMove ↔
          restrictedLegal E b allowed_moves = [])) := by
  refine ⟨pick_move_empty E b depth allowed_moves prev_best,
    pick_move_mem E b depth allowed_moves prev_best, fun hnull => ⟨?_, ?_⟩⟩
  · intro heq
    by_contra hne
    have hmem := pick_move_mem E b depth allowed_moves prev_best hne
    rw [heq] at hmem
    exact hnull (restrictedLegal_subset E b allowed_moves _ hmem)
  · exact pick_move_empty E b depth allowed_moves prev_best

/-- C4 (witness): with legal moves {5, 7} and the restriction {7}, the
effective list is {7}, non-empty, and `pick_move` returns a member of it. -/
theorem C4_pick_move_restriction_witness :
    restrictedLegal twoE 0 (some [7]) ≠ []
    ∧ pick_move twoE 0 1 (some [7]) none ∈ restrictedLegal twoE 0 (some [7]) :=
  ⟨by decide, (C4_pick_move_restriction twoE 0 1 (some [7]) none).2.1 (by decide)⟩

/-- C4 (counterexample): with legal moves {5, 7} and the present-but-empty
restriction list, the intersection of the legal moves with the restriction is
empty, so the claim requires the null sentinel; the code treats the empty
restriction as absent and returns the legal move 5 ≠ null. -/
theorem C4_pick_move_restriction_counterexample :
    ((twoE.legalMoves 0).filter
        (fun m => (([] : List Nat).map twoE.uci).contains (twoE.uci m))) = []
    ∧ restrictedLegal twoE 0 (some []) = twoE.legalMoves 0
    ∧ pick_move twoE 0 1 (some []) none = 5
    ∧ (5 : Nat) ≠ twoE.nullMove := by
  decide

/-! ## Fuel stabilisation: the termination argument of the source

`quiescence` recurses only with `q_depth + 1` and stops at
`QUIESCENCE_MAX_DEPTH`; `negamax` recurses only with `ply + 1` and stops at
`MAX_PLY` (the `depth` argument may fail to decrease under check
extensions).  Accordingly the fuel-indexed functions become independent of
the fuel as soon as it covers the remaining distance to the bound. -/

theorem qloopGen_congr (E : Engine Pos Move) (r1 r2 : Pos → Int → Int → Nat → Int)
    (b : Pos) (ms : List Move) (alpha beta : Int) (q_depth : Nat)
    (h : ∀ b2 a2 b3, r1 b2 a2 b3 (q_depth + 1) = r2 b2 a2 b3 (q_depth + 1)) :
    qloopGen E r1 b ms alpha beta q_depth = qloopGen E r2 b ms alpha beta q_depth := by
  induction ms generalizing alpha with
  | nil => rfl
  | cons m rest ih =>
    simp only [qloopGen, h]
    split
    · rfl
    · exact ih _

theorem quiescenceBody_congr (E : Engine Pos Move) [DecidableEq Move]
    (r1 r2 : Pos → Int → Int → Nat → Int) (b : Pos) (alpha beta : Int) (q_depth : Nat)
    (h : ∀ b2 a2 b3, r1 b2 a2 b3 (q_depth + 1) = r2 b2 a2 b3 (q_depth + 1)) :
    quiescenceBody E r1 b alpha beta q_depth = quiescenceBody E r2 b alpha beta q_depth := by
  simp only [quiescenceBody]
  split_ifs <;> first
    | rfl
    | exact qloopGen_congr E _ _ _ _ _ _ _ h

theorem quiescenceF_succ (E : Engine Pos Move) [DecidableEq Move] :
    ∀ (f : Nat) (b : Pos) (alpha beta : Int) (q_depth : Nat),
      QUIESCENCE_MAX_DEPTH ≤ q_depth + f →
      quiescenceF E (f + 1) b alpha beta q_depth = quiescenceF E f b alpha beta q_depth := by
  intro f
  induction f with
  | zero =>
    intro b alpha beta q_depth h
    have hq : q_depth ≥ QUIESCENCE_MAX_DEPTH := by omega
    simp [quiescenceF, quiescenceBody, hq]
  | succ f ih =>
    intro b alpha beta q_depth h
    have hrec : ∀ b2 a2 b3,
        quiescenceF E (f + 1) b2 a2 b3 (q_depth + 1) = quiescenceF E f b2 a2 b3 (q_depth + 1) :=
      fun b2 a2 b3 => ih b2 a2 b3 (q_depth + 1) (by omega)
    simp only [quiescenceF]
    exact quiescenceBody_congr E _ _ b alpha beta q_depth hrec

theorem quiescenceF_stable (E : Engine Pos Move) [DecidableEq Move]
    (b : Pos) (alpha beta : Int) (q_depth : Nat) :
    ∀ f : Nat, QUIESCENCE_MAX_DEPTH - q_depth ≤ f →
      quiescenceF E f b alpha beta q_depth = quiescence E b alpha beta q_depth := by
  have base : ∀ k : Nat,
      quiescenceF E (QUIESCENCE_MAX_DEPTH - q_depth + k) b alpha beta q_depth =
        quiescence E b alpha beta q_depth := by
    intro k
    induction k with
    | zero => rfl
    | succ k ih =>
      have hstep := quiescenceF_succ E (QUIESCENCE_MAX_DEPTH - q_depth + k) b alpha beta q_depth
        (by omega)
      calc quiescenceF E (QUIESCENCE_MAX_DEPTH - q_depth + (k + 1)) b alpha beta q_depth
          = quiescenceF E (QUIESCENCE_MAX_DEPTH - q_depth + k + 1) b alpha beta q_depth := by
            ring_nf
        _ = quiescenceF E (QUIESCENCE_MAX_DEPTH - q_depth + k) b alpha beta q_depth := hstep
        _ = quiescence E b alpha beta q_depth := ih
  intro f hf
  obtain ⟨k, rfl⟩ : ∃ k, f = QUIESCENCE_MAX_DEPTH - q_depth + k :=
    ⟨f - (QUIESCENCE_MAX_DEPTH - q_depth), by omega⟩
  exact base k

theorem searchMovesGen_congr (E : Engine Pos Move)
    (r1 r2 : Pos → Int → Int → Int → SearchTT Move → Nat → Int × SearchTT Move)
    (b : Pos) (depth : Int) (beta : Int) (ply : Nat)
    (h : ∀ b2 d2 a2 b3 s2, r1 b2 d2 a2 b3 s2 (ply + 1) = r2 b2 d2 a2 b3 s2 (ply + 1)) :
    ∀ (ms : List Move) (alpha bestScore : Int) (bestMove : Option Move) (stt : SearchTT Move),
      searchMovesGen E r1 b depth ms alpha beta bestScore bestMove stt ply =
        searchMovesGen E r2 b depth ms alpha beta bestScore bestMove stt ply := by
  intro ms
  induction ms with
  | nil => intro alpha bs bm stt; rfl
  | cons m rest ih =>
    intro alpha bs bm stt
    simp only [searchMovesGen, h]
    split_ifs <;> first
      | rfl
      | exact ih _ _ _ _

theorem negamaxRestGen_congr (E : Engine Pos Move) [DecidableEq Move]
    (r1 r2 : Pos → Int → Int → Int → SearchTT Move → Nat → Int × SearchTT Move)
    (b : Pos) (depth alpha beta origAlpha origBeta : Int) (tt_move : Option Move)
    (stt : SearchTT Move) (ply : Nat)
    (h : ∀ b2 d2 a2 b3 s2, r1 b2 d2 a2 b3 s2 (ply + 1) = r2 b2 d2 a2 b3 s2 (ply + 1)) :
    negamaxRestGen E r1 b depth alpha beta origAlpha origBeta tt_move stt ply =
      negamaxRestGen E r2 b depth alpha beta origAlpha origBeta tt_move stt ply := by
  simp only [negamaxRestGen]
  split
  · rfl
  · split
    · rfl
    · rw [searchMovesGen_congr E r1 r2 b depth beta ply h]

theorem negamaxBody_congr (E : Engine Pos Move) [DecidableEq Move]
    (r1 r2 : Pos → Int → Int → Int → SearchTT Move → Nat → Int × SearchTT Move)
    (b : Pos) (depth alpha beta : Int) (stt : SearchTT Move) (ply : Nat)
    (h : ∀ b2 d2 a2 b3 s2, r1 b2 d2 a2 b3 s2 (ply + 1) = r2 b2 d2 a2 b3 s2 (ply + 1)) :
    negamaxBody E r1 b depth alpha beta stt ply =
      negamaxBody E r2 b depth alpha beta stt ply := by
  simp only [negamaxBody]
  split_ifs <;> try rfl
  cases htt : ttGet stt (tt_key E b) with
  | none =>
    dsimp only
    exact negamaxRestGen_congr E _ _ b depth alpha beta alpha beta none stt ply h
  | some tte =>
    dsimp only
    split_ifs <;> first
      | rfl
      | exact negamaxRestGen_congr E _ _ b depth _ _ alpha beta tte.move stt ply h

theorem negamaxF_succ (E : Engine Pos Move) [DecidableEq Move] :
    ∀ (f : Nat) (b : Pos) (depth alpha beta : Int) (stt : SearchTT Move) (ply : Nat),
      MAX_PLY ≤ ply + f →
      negamaxF E (f + 1) b depth alpha beta stt ply = negamaxF E f b depth alpha beta stt ply := by
  intro f
  induction f with
  | zero =>
    intro b depth alpha beta stt ply h
    have hp : ply ≥ MAX_PLY := by omega
    simp [negamaxF, negamaxBody, hp]
  | succ f ih =>
    intro b depth alpha beta stt ply h
    have hrec : ∀ b2 d2 a2 b3 s2,
        negamaxF E (f + 1) b2 d2 a2 b3 s2 (ply + 1) = negamaxF E f b2 d2 a2 b3 s2 (ply + 1) :=
      fun b2 d2 a2 b3 s2 => ih b2 d2 a2 b3 s2 (ply + 1) (by omega)
    simp only [negamaxF]
    exact negamaxBody_congr E _ _ b depth alpha beta stt ply hrec

theorem negamaxF_stable (E : Engine Pos Move) [DecidableEq Move]
    (b : Pos) (depth alpha beta : Int) (stt : SearchTT Move) (ply : Nat) :
    ∀ f : Nat, MAX_PLY - ply ≤ f →
      negamaxF E f b depth alpha beta stt ply = negamax E b depth alpha beta stt ply := by
  have base : ∀ k : Nat,
      negamaxF E (MAX_PLY - ply + k) b depth alpha beta stt ply =
        negamax E b depth alpha beta stt ply := by
    intro k
    induction k with
    | zero => rfl
    | succ k ih =>
      have hstep := negamaxF_succ E (MAX_PLY - ply + k) b depth alpha beta stt ply (by omega)
      calc negamaxF E (MAX_PLY - ply + (k + 1)) b depth alpha beta stt ply
          = negamaxF E (MAX_PLY - ply + k + 1) b depth alpha beta stt ply := by ring_nf
        _ = negamaxF E (MAX_PLY - ply + k) b depth alpha beta stt ply := hstep
        _ = negamax E b depth alpha beta stt ply := ih
  intro f hf
  obtain ⟨k, rfl⟩ : ∃ k, f = MAX_PLY - ply + k := ⟨f - (MAX_PLY - ply), by omega⟩
  exact base k

/-- C6: quiescence terminates because q_depth strictly increases toward
QUIESCENCE_MAX_DEPTH, and negamax terminates because ply strictly increases
toward MAX_PLY even when check extensions keep the depth argument from
decreasing: in the fuel-indexed embeddings, any fuel covering the distance to
the respective bound yields the same result, so the recursion depth of each
function is bounded by that distance. -/
theorem C6_termination_bounds (E : Engine Pos Move) [DecidableEq Move]
    (b : Pos) (depth alpha beta : Int) (stt : SearchTT Move)
    (q_depth ply f1 f2 g1 g2 : Nat)
    (hf1 : QUIESCENCE_MAX_DEPTH - q_depth ≤ f1)
    (hf2 : QUIESCENCE_MAX_DEPTH - q_depth ≤ f2)
    (hg1 : MAX_PLY - ply ≤ g1) (hg2 : MAX_PLY - ply ≤ g2) :
    quiescenceF E f1 b alpha beta q_depth = quiescenceF E f2 b alpha beta q_depth
    ∧ negamaxF E g1 b depth alpha beta stt ply = negamaxF E g2 b depth alpha beta stt ply :=
  ⟨(quiescenceF_stable E b alpha beta q_depth f1 hf1).trans
      (quiescenceF_stable E b alpha beta q_depth f2 hf2).symm,
    (negamaxF_stable E b depth alpha beta stt ply g1 hg1).trans
      (negamaxF_stable E b depth alpha beta stt ply g2 hg2).symm⟩

/-- C6 (witness): concrete fuels beyond the bounds give identical results. -/
theorem C6_termination_bounds_witness :
    (QUIESCENCE_MAX_DEPTH - 0 ≤ 4 ∧ QUIESCENCE_MAX_DEPTH - 0 ≤ 9
      ∧ MAX_PLY - 0 ≤ 100 ∧ MAX_PLY - 0 ≤ 150)
    ∧ (quiescenceF baseE 4 0 (-5) 5 0 = quiescenceF baseE 9 0 (-5) 5 0
      ∧ negamaxF baseE 100 0 3 (-5) 5 [] 0 = negamaxF baseE 150 0 3 (-5) 5 [] 0) :=
  ⟨⟨by decide, by decide, by decide, by decide⟩,
    C6_termination_bounds baseE 0 3 (-5) 5 [] 0 0 4 9 100 150
      (by decide) (by decide) (by decide) (by decide)⟩

/-! ## The search transposition table stores only non-claimable positions -/

/-- A key the search may legitimately store: the key of some position at
which no threefold-repetition or fifty-move draw is claimable. -/
def storableKey (E : Engine Pos Move) (k : PosKey) : Prop :=
  ∃ b : Pos, (E.canClaimThreefoldRepetition b || E.canClaimFiftyMoves b) = false
    ∧ k = tt_key E b

theorem ttKeys_ttSet (stt : SearchTT Move) (k : PosKey) (e : SearchEntry Move) :
    ttKeys (ttSet stt k e) = k :: ttKeys stt := rfl

theorem searchMovesGen_keys (E : Engine Pos Move)
    (rec : Pos → Int → Int → Int → SearchTT Move → Nat → Int × SearchTT Move)
    (b : Pos) (depth beta : Int) (ply : Nat)
    (hrec : ∀ b2 d2 a2 b3 s2 p2 k, k ∈ ttKeys (rec b2 d2 a2 b3 s2 p2).2 →
      k ∈ ttKeys s2 ∨ storableKey E k) :
    ∀ (ms : List Move) (alpha bestScore : Int) (bestMove : Option Move)
      (stt : SearchTT Move) (k : PosKey),
      k ∈ ttKeys (searchMovesGen E rec b depth ms alpha beta bestScore bestMove stt ply).2.2 →
      k ∈ ttKeys stt ∨ storableKey E k := by
  intro ms
  induction ms with
  | nil =>
    intro alpha bs bm stt k hk
    left
    simpa [searchMovesGen] using hk
  | cons m rest ih =>
    intro alpha bs bm stt k hk
    simp only [searchMovesGen] at hk
    split_ifs at hk <;>
      first
      | exact hrec _ _ _ _ _ _ _ hk
      | (rcases ih _ _ _ _ _ hk with h | h
         · exact hrec _ _ _ _ _ _ _ h
         · exact Or.inr h)

theorem negamaxRestGen_keys (E : Engine Pos Move) [DecidableEq Move]
    (rec : Pos → Int → Int → Int → SearchTT Move → Nat → Int × SearchTT Move)
    (b : Pos) (depth alpha beta origAlpha origBeta : Int) (tt_move : Option Move)
    (stt : SearchTT Move) (ply : Nat)
    (hrec : ∀ b2 d2 a2 b3 s2 p2 k, k ∈ ttKeys (rec b2 d2 a2 b3 s2 p2).2 →
      k ∈ ttKeys s2 ∨ storableKey E k)
    (hclaim : (E.canClaimThreefoldRepetition b || E.canClaimFiftyMoves b) = false)
    (k : PosKey) :
    k ∈ ttKeys (negamaxRestGen E rec b depth alpha beta origAlpha origBeta tt_move stt ply).2 →
    k ∈ ttKeys stt ∨ storableKey E k := by
  intro hk
  by_cases hd : depth ≤ 0
  · left
    simpa [negamaxRestGen, hd] using hk
  · simp only [negamaxRestGen, if_neg hd] at hk
    cases hms : order_moves E b (E.legalMoves b) tt_move with
    | nil =>
      rw [hms] at hk
      dsimp only at hk
      split_ifs at hk <;> (left; simpa using hk)
    | cons m rest =>
      rw [hms] at hk
      dsimp only at hk
      rw [ttKeys_ttSet] at hk
      rcases List.mem_cons.mp hk with hkey | hmem
      · exact Or.inr ⟨b, hclaim, hkey⟩
      · exact searchMovesGen_keys E rec b depth beta ply hrec _ _ _ _ _ _ hmem

theorem negamaxF_keys (E : Engine Pos Move) [DecidableEq Move] :
    ∀ (fuel : Nat) (b : Pos) (depth alpha beta : Int) (stt : SearchTT Move)
      (ply : Nat) (k : PosKey),
      k ∈ ttKeys (negamaxF E fuel b depth alpha beta stt ply).2 →
      k ∈ ttKeys stt ∨ storableKey E k := by
  intro fuel
  induction fuel with
  | zero =>
    intro b depth alpha beta stt ply k hk
    left
    simpa [negamaxF] using hk
  | succ f ih =>
    intro b depth alpha beta stt ply k hk
    have hrec : ∀ b2 d2 a2 b3 s2 p2 k2, k2 ∈ ttKeys (negamaxF E f b2 d2 a2 b3 s2 p2).2 →
        k2 ∈ ttKeys s2 ∨ storableKey E k2 :=
      fun b2 d2 a2 b3 s2 p2 k2 hk2 => ih b2 d2 a2 b3 s2 p2 k2 hk2
    simp only [negamaxF, negamaxBody] at hk
    by_cases hply : ply ≥ MAX_PLY
    · rw [if_pos hply] at hk
      left
      simpa using hk
    rw [if_neg hply] at hk
    by_cases hcl : (E.canClaimThreefoldRepetition b || E.canClaimFiftyMoves b) = true
    · rw [if_pos hcl] at hk
      left
      simpa using hk
    rw [if_neg hcl] at hk
    have hcl2 : (E.canClaimThreefoldRepetition b || E.canClaimFiftyMoves b) = false :=
      Bool.not_eq_true _ ▸ eq_false_of_ne_true hcl
    by_cases hcm : E.isCheckmate b = true
    · rw [if_pos hcm] at hk
      left
      simpa using hk
    rw [if_neg hcm] at hk
    by_cases hdr : is_draw E b = true
    · rw [if_pos hdr] at hk
      left
      simpa using hk
    rw [if_neg hdr] at hk
    cases htt : ttGet stt (tt_key E b) with
    | none =>
      rw [htt] at hk
      dsimp only at hk
      exact negamaxRestGen_keys E _ b depth alpha beta alpha beta none stt ply hrec hcl2 k hk
    | some tte =>
      rw [htt] at hk
      dsimp only at hk
      split_ifs at hk <;>
        first
        | (left; simpa using hk)
        | exact negamaxRestGen_keys E _ b depth _ _ alpha beta tte.move stt ply hrec hcl2 k hk

/-- C5 (amended): for every negamax call below the MAX_PLY guard on a
position where a threefold-repetition or fifty-move draw is claimable, the
call returns -CONTEMPT with the search transposition table untouched (the
draw-by-claim check precedes both the probe and the store); consequently
every key present in the table after any call was either present before the
call or is the entry key of a position at which no such draw was claimable
when it was stored. -/
theorem C5_claimable_draw_guard (E : Engine Pos Move) [DecidableEq Move] :
    (∀ (b : Pos) (depth alpha beta : Int) (stt : SearchTT Move) (ply : Nat),
      ply < MAX_PLY →
      (E.canClaimThreefoldRepetition b || E.canClaimFiftyMoves b) = true →
      negamax E b depth alpha beta stt ply = (-CONTEMPT, stt))
    ∧ (∀ (fuel : Nat) (b : Pos) (depth alpha beta : Int) (stt : SearchTT Move)
        (ply : Nat) (k : PosKey),
        k ∈ ttKeys (negamaxF E fuel b depth alpha beta stt ply).2 →
        k ∈ ttKeys stt ∨ storableKey E k) := by
  constructor
  · intro b depth alpha beta stt ply hply hcl
    obtain ⟨f, hf⟩ : ∃ f, MAX_PLY - ply = f + 1 := ⟨MAX_PLY - ply - 1, by omega⟩
    rw [negamax, hf]
    simp only [negamaxF, negamaxBody]
    rw [if_neg (by omega : ¬ ply ≥ MAX_PLY), if_pos hcl]
  · exact negamaxF_keys E

/-- C5 (witness): a claimable-draw position at ply 0 returns -CONTEMPT and
leaves the table unchanged. -/
theorem C5_claimable_draw_guard_witness :
    (0 < MAX_PLY
      ∧ (claimE.canClaimThreefoldRepetition 0 || claimE.canClaimFiftyMoves 0) = true)
    ∧ negamax claimE 0 3 (-1000) 1000 [] 0 = (-CONTEMPT, []) :=
  ⟨⟨by decide, by decide⟩,
    (C5_claimable_draw_guard claimE).1 0 3 (-1000) 1000 [] 0 (by decide) (by decide)⟩

/-- C5 (counterexample): the MAX_PLY guard precedes the draw-by-claim check,
so a negamax call at ply = MAX_PLY on a claimable-draw position returns the
signed static evaluation (here 7), not -CONTEMPT; the claim as stated
quantifies over every negamax call. -/
theorem C5_claimable_draw_guard_counterexample :
    claimE.canClaimThreefoldRepetition 0 = true
    ∧ negamax claimE 0 3 (-INF) INF [] MAX_PLY = (7, [])
    ∧ (7 : Int) ≠ -CONTEMPT := by decide

/-- When the guards before the probe do not fire and the table holds an
entry for the position key, one negamax step is exactly the probe logic of
alphabeta.py lines 235-252 followed by `negamaxCont`. -/
theorem negamax_unfold_probe (E : Engine Pos Move) [DecidableEq Move]
    (b : Pos) (depth alpha beta : Int) (stt : SearchTT Move) (ply : Nat)
    (e : SearchEntry Move)
    (hply : ply < MAX_PLY)
    (hcl : (E.canClaimThreefoldRepetition b || E.canClaimFiftyMoves b) = false)
    (hcm : E.isCheckmate b = false)
    (hdr : is_draw E b = false)
    (hget : ttGet stt (tt_key E b) = some e) :
    negamax E b depth alpha beta stt ply =
      (if e.depth ≥ depth then
        if e.flag = TT_EXACT then (e.score, stt)
        else
          let alpha2 := if e.flag = TT_LOWER then max alpha e.score else alpha
          let beta2 := if e.flag = TT_UPPER then min beta e.score else beta
          if alpha2 ≥ beta2 then (e.score, stt)
          else negamaxCont E b depth alpha2 beta2 alpha beta e.move stt ply
      else negamaxCont E b depth alpha beta alpha beta e.move stt ply) := by
  obtain ⟨f, hf⟩ : ∃ f, MAX_PLY - ply = f + 1 := ⟨MAX_PLY - ply - 1, by omega⟩
  rw [negamax, hf]
  simp only [negamaxF, negamaxBody]
  rw [if_neg (by omega : ¬ ply ≥ MAX_PLY), if_neg (by simp [hcl]), if_neg (by simp [hcm]),
    if_neg (by simp [hdr]), hget]
  dsimp only
  simp only [negamaxCont]
  have hf2 : MAX_PLY - ply - 1 = f := by omega
  rw [hf2]

/-- C1: a stored entry shortcuts the search only when its depth is at least
the requested depth; in that case an EXACT entry returns its score directly,
a LOWER entry raises alpha to the stored score, an UPPER entry lowers beta
to the stored score, an inverted tightened window returns the stored score
immediately, and the stored move is passed on as the ordering hint to the
continuation regardless of depth sufficiency. -/
theorem C1_tt_probe (E : Engine Pos Move) [DecidableEq Move]
    (b : Pos) (depth alpha beta : Int) (stt : SearchTT Move) (ply : Nat)
    (e : SearchEntry Move)
    (hply : ply < MAX_PLY)
    (hcl : (E.canClaimThreefoldRepetition b || E.canClaimFiftyMoves b) = false)
    (hcm : E.isCheckmate b = false)
    (hdr : is_draw E b = false)
    (hget : ttGet stt (tt_key E b) = some e) :
    (e.depth ≥ depth → e.flag = TT_EXACT →
      negamax E b depth alpha beta stt ply = (e.score, stt))
    ∧ (e.depth ≥ depth → e.flag = TT_LOWER → max alpha e.score < beta →
        negamax E b depth alpha beta stt ply =
          negamaxCont E b depth (max alpha e.score) beta alpha beta e.move stt ply)
    ∧ (e.depth ≥ depth → e.flag = TT_LOWER → max alpha e.score ≥ beta →
        negamax E b depth alpha beta stt ply = (e.score, stt))
    ∧ (e.depth ≥ depth → e.flag = TT_UPPER → alpha < min beta e.score →
        negamax E b depth alpha beta stt ply =
          negamaxCont E b depth alpha (min beta e.score) alpha beta e.move stt ply)
    ∧ (e.depth ≥ depth → e.flag = TT_UPPER → alpha ≥ min beta e.score →
        negamax E b depth alpha beta stt ply = (e.score, stt))
    ∧ (¬ e.depth ≥ depth →
        negamax E b depth alpha beta stt ply =
          negamaxCont E b depth alpha beta alpha beta e.move stt ply) := by
  have hu := negamax_unfold_probe E b depth alpha beta stt ply e hply hcl hcm hdr hget
  refine ⟨?_, ?_, ?_, ?_, ?_, ?_⟩
  · intro h1 h2
    rw [hu]
    simp [h1, h2]
  · intro h1 h2 h3
    rw [hu]
    simp [h1, h2, TT_EXACT, TT_LOWER, TT_UPPER, not_le.mpr h3]
  · intro h1 h2 h3
    rw [hu]
    simp [h1, h2, TT_EXACT, TT_LOWER, TT_UPPER, h3]
  · intro h1 h2 h3
    rw [hu]
    simp [h1, h2, TT_EXACT, TT_LOWER, TT_UPPER, not_le.mpr h3]
  · intro h1 h2 h3
    rw [hu]
    simp [h1, h2, TT_EXACT, TT_LOWER, TT_UPPER, h3]
  · intro h1
    rw [hu]
    simp [h1]

/-- C1 (witness): an EXACT entry of sufficient depth returns its stored
score directly and leaves the table unchanged. -/
theorem C1_tt_probe_witness :
    (0 < MAX_PLY
      ∧ (quietE.canClaimThreefoldRepetition 0 || quietE.canClaimFiftyMoves 0) = false
      ∧ quietE.isCheckmate 0 = false
      ∧ is_draw quietE 0 = false
      ∧ ttGet [(tt_key quietE 0, (⟨3, TT_EXACT, 77, none⟩ : SearchEntry Nat))]
          (tt_key quietE 0) = some ⟨3, TT_EXACT, 77, none⟩
      ∧ (⟨3, TT_EXACT, 77, none⟩ : SearchEntry Nat).depth ≥ 2
      ∧ (⟨3, TT_EXACT, 77, none⟩ : SearchEntry Nat).flag = TT_EXACT)
    ∧ negamax quietE 0 2 (-1000) 1000 [(tt_key quietE 0, ⟨3, TT_EXACT, 77, none⟩)] 0
        = (77, [(tt_key quietE 0, ⟨3, TT_EXACT, 77, none⟩)]) :=
  ⟨⟨by decide, by decide, by decide, by decide, by decide, by decide, by decide⟩,
    (C1_tt_probe quietE 0 2 (-1000) 1000 _ 0 ⟨3, TT_EXACT, 77, none⟩ (by decide) (by decide)
      (by decide) (by decide) (by decide)).1 (by decide) (by decide)⟩

/-- One negamax step when the guards do not fire and the table has no entry
for the key. -/
theorem negamax_unfold_noentry (E : Engine Pos Move) [DecidableEq Move]
    (b : Pos) (depth alpha beta : Int) (stt : SearchTT Move) (ply : Nat)
    (hply : ply < MAX_PLY)
    (hcl : (E.canClaimThreefoldRepetition b || E.canClaimFiftyMoves b) = false)
    (hcm : E.isCheckmate b = false)
    (hdr : is_draw E b = false)
    (hget : ttGet stt (tt_key E b) = none) :
    negamax E b depth alpha beta stt ply =
      negamaxCont E b depth alpha beta alpha beta none stt ply := by
  obtain ⟨f, hf⟩ : ∃ f, MAX_PLY - ply = f + 1 := ⟨MAX_PLY - ply - 1, by omega⟩
  rw [negamax, hf]
  simp only [negamaxF, negamaxBody]
  rw [if_neg (by omega : ¬ ply ≥ MAX_PLY), if_neg (by simp [hcl]), if_neg (by simp [hcm]),
    if_neg (by simp [hdr]), hget]
  dsimp only
  simp only [negamaxCont]
  have hf2 : MAX_PLY - ply - 1 = f := by omega
  rw [hf2]

theorem negamaxCont_depth0 (E : Engine Pos Move) [DecidableEq Move]
    (b : Pos) (depth alpha beta origAlpha origBeta : Int) (tt_move : Option Move)
    (stt : SearchTT Move) (ply : Nat) (hd : depth ≤ 0) :
    negamaxCont E b depth alpha beta origAlpha origBeta tt_move stt ply =
      (quiescence E b alpha beta 0, stt) := by
  simp [negamaxCont, negamaxRestGen, hd]

/-- C7 (amended): a negamax call at depth 0 (ply 0) returns the quiescence
value for the same window and leaves the table unchanged, provided no
pre-quiescence guard fires: the position has no claimable draw, is not
checkmate, is not a rule draw, and the search cache holds no entry of
sufficient depth (no entry, or an entry of negative stored depth) for the
position key. -/
theorem C7_depth0_quiescence (E : Engine Pos Move) [DecidableEq Move] (b : Pos)
    (alpha beta : Int) (stt : SearchTT Move)
    (hcl : (E.canClaimThreefoldRepetition b || E.canClaimFiftyMoves b) = false)
    (hcm : E.isCheckmate b = false)
    (hdr : is_draw E b = false)
    (hget : ttGet stt (tt_key E b) = none
      ∨ ∃ e, ttGet stt (tt_key E b) = some e ∧ e.depth < 0) :
    negamax E b 0 alpha beta stt 0 = (quiescence E b alpha beta 0, stt) := by
  have hply : (0 : Nat) < MAX_PLY := by decide
  rcases hget with hnone | ⟨e, hsome, hdep⟩
  · rw [negamax_unfold_noentry E b 0 alpha beta stt 0 hply hcl hcm hdr hnone]
    exact negamaxCont_depth0 E b 0 alpha beta alpha beta none stt 0 le_rfl
  · rw [negamax_unfold_probe E b 0 alpha beta stt 0 e hply hcl hcm hdr hsome]
    rw [if_neg (not_le.mpr hdep)]
    exact negamaxCont_depth0 E b 0 alpha beta alpha beta e.move stt 0 le_rfl

/-- C7 (witness): with an empty cache and no interfering guard, the depth-0
negamax value is the quiescence value. -/
theorem C7_depth0_quiescence_witness :
    ((quietE.canClaimThreefoldRepetition 0 || quietE.canClaimFiftyMoves 0) = false
      ∧ quietE.isCheckmate 0 = false
      ∧ is_draw quietE 0 = false
      ∧ ttGet ([] : SearchTT Nat) (tt_key quietE 0) = none)
    ∧ negamax quietE 0 0 (-1000) 1000 [] 0 = (quiescence quietE 0 (-1000) 1000 0, []) :=
  ⟨⟨by decide, by decide, by decide, by decide⟩,
    C7_depth0_quiescence quietE 0 (-1000) 1000 []
      (by decide) (by decide) (by decide) (Or.inl (by decide))⟩

/-- C7 (counterexample): the claim quantifies over every cache state, but a
stored EXACT entry of depth 0 makes negamax at depth 0 return the stored
score 123 while quiescence computes 0 from the position itself. -/
theorem C7_depth0_quiescence_counterexample :
    negamax quietE 0 0 (-1000) 1000 [(tt_key quietE 0, ⟨0, TT_EXACT, 123, none⟩)] 0
      = (123, [(tt_key quietE 0, ⟨0, TT_EXACT, 123, none⟩)])
    ∧ quiescence quietE 0 (-1000) 1000 0 = 0
    ∧ (123 : Int) ≠ 0 := by decide

/-! ## Mate scoring -/

theorem negamax_checkmate (E : Engine Pos Move) [DecidableEq Move]
    (b : Pos) (depth alpha beta : Int) (stt : SearchTT Move) (ply : Nat)
    (hply : ply < MAX_PLY)
    (hcl : (E.canClaimThreefoldRepetition b || E.canClaimFiftyMoves b) = false)
    (hcm : E.isCheckmate b = true) :
    negamax E b depth alpha beta stt ply = (-MATE_SCORE + ply, stt) := by
  obtain ⟨f, hf⟩ : ∃ f, MAX_PLY - ply = f + 1 := ⟨MAX_PLY - ply - 1, by omega⟩
  rw [negamax, hf]
  simp only [negamaxF, negamaxBody]
  rw [if_neg (by omega : ¬ ply ≥ MAX_PLY), if_neg (by simp [hcl]), if_pos hcm]

theorem quiescence_mate (E : Engine Pos Move) [DecidableEq Move]
    (b : Pos) (alpha beta : Int) (q_depth : Nat)
    (hq : q_depth < QUIESCENCE_MAX_DEPTH)
    (hchk : E.isCheck b = true) (hleg : E.legalMoves b = []) :
    quiescence E b alpha beta q_depth = -MATE_SCORE + q_depth := by
  obtain ⟨f, hf⟩ : ∃ f, QUIESCENCE_MAX_DEPTH - q_depth = f + 1 :=
    ⟨QUIESCENCE_MAX_DEPTH - q_depth - 1, by omega⟩
  rw [quiescence, hf]
  simp only [quiescenceF, quiescenceBody]
  rw [if_neg (by omega : ¬ q_depth ≥ QUIESCENCE_MAX_DEPTH)]
  simp [hchk, hleg]

/-- C8 (amended): at a checkmated node negamax returns -MATE_SCORE + ply and
quiescence (in check, no legal moves, below its depth cap) returns
-MATE_SCORE + q_depth, so the mate-score magnitude shrinks with depth and
nearer mates are preferred; on clean positions (no claimable-draw contempt
interference) a forced mate in 1 scores MATE_SCORE - 1, strictly above the
MATE_SCORE - 3 of a forced mate in 3 for the same side.  Without excluding
claimable-draw positions the comparative claim fails (see the
counterexample). -/
theorem C8_mate_scoring :
    (∀ {P M : Type} [DecidableEq M] (E : Engine P M) (b : P)
        (depth alpha beta : Int) (stt : SearchTT M) (ply : Nat),
      ply < MAX_PLY →
      (E.canClaimThreefoldRepetition b || E.canClaimFiftyMoves b) = false →
      E.isCheckmate b = true →
      negamax E b depth alpha beta stt ply = (-MATE_SCORE + ply, stt))
    ∧ (∀ {P M : Type} [DecidableEq M] (E : Engine P M) (b : P)
        (alpha beta : Int) (q_depth : Nat),
      q_depth < QUIESCENCE_MAX_DEPTH → E.isCheck b = true → E.legalMoves b = [] →
      quiescence E b alpha beta q_depth = -MATE_SCORE + q_depth)
    ∧ (matesInPlies mate1E 1 0 = true ∧ matesInPlies mate3E 3 0 = true
      ∧ mate1E.turn 0 = mate3E.turn 0
      ∧ (negamax mate1E 0 3 (-INF) INF [] 0).1 = MATE_SCORE - 1
      ∧ (negamax mate3E 0 3 (-INF) INF [] 0).1 = MATE_SCORE - 3
      ∧ MATE_SCORE - 3 < MATE_SCORE - 1) := by
  refine ⟨?_, ?_, by decide⟩
  · intro P M _ E b depth alpha beta stt ply hply hcl hcm
    exact negamax_checkmate E b depth alpha beta stt ply hply hcl hcm
  · intro P M _ E b alpha beta q_depth hq hchk hleg
    exact quiescence_mate E b alpha beta q_depth hq hchk hleg

/-- C8 (witness): the checkmated node of the mate-in-1 engine at ply 1
scores -MATE_SCORE + 1. -/
theorem C8_mate_scoring_witness :
    (1 < MAX_PLY
      ∧ (mate1E.canClaimThreefoldRepetition 1 || mate1E.canClaimFiftyMoves 1) = false
      ∧ mate1E.isCheckmate 1 = true)
    ∧ negamax mate1E 1 2 (-1000) 1000 [] 1 = (-MATE_SCORE + 1, []) :=
  ⟨⟨by decide, by decide, by decide⟩,
    C8_mate_scoring.1 mate1E 1 2 (-1000) 1000 [] 1 (by decide) (by decide) (by decide)⟩

/-- C8 (counterexample): both positions give the same side a forced mate (in
1 and in 3 plies respectively), but in the mate-in-1 position a threefold
repetition is claimable, so the draw-contempt guard returns -CONTEMPT before
mate detection: the search scores the mate-in-1 position -20, far below the
MATE_SCORE - 3 of the mate-in-3 position, contradicting the claimed strict
ordering.  (Realisable over the board: a position where the third repetition
has occurred but a mating move is available.) -/
theorem C8_mate_scoring_counterexample :
    matesInPlies mate1ClaimE 1 0 = true
    ∧ matesInPlies mate3E 3 0 = true
    ∧ mate1ClaimE.turn 0 = mate3E.turn 0
    ∧ (negamax mate1ClaimE 0 3 (-INF) INF [] 0).1 = -CONTEMPT
    ∧ (negamax mate3E 0 3 (-INF) INF [] 0).1 = MATE_SCORE - 3
    ∧ ¬ ((negamax mate1ClaimE 0 3 (-INF) INF [] 0).1 >
          (negamax mate3E 0 3 (-INF) INF [] 0).1) := by
  decide

/-- C9: the TT-move bonus does not dominate.  At the failing input — a White
pawn on b7 capturing a queen on a8 with promotion to a queen (move 2), while
the preferred (TT) move is a quiet move (move 1) — the quiet TT move scores
exactly SCORE_TT_MOVE = 20000000, the capture-promotion scores
8000900 + 6000000 + 8999900 = 23000800 > 20000000, and `_order_moves`
places the non-preferred move first, contradicting the code's own
"TT move gets highest priority" documentation and the claim. -/
theorem C9_tt_move_not_dominant :
    move_score promoE 0 (some 1) 1 = SCORE_TT_MOVE
    ∧ move_score promoE 0 (some 1) 2 = 23000800
    ∧ SCORE_TT_MOVE < move_score promoE 0 (some 1) 2
    ∧ order_moves promoE 0 [1, 2] (some 1) = [2, 1] := by
  decide

/-- C2: an exception raised below a push escapes without the matching pop.
At the failing input, quiescence at a one-capture position pushes the
capture, the child's evaluation raises, and the exception propagates out of
quiescence with the board still one move deep (stack [0], current position
1) instead of restored to the entry state; with a non-raising evaluator the
same call returns normally with the board restored exactly. -/
theorem C2_exception_skips_pop :
    quiescenceS capE failEval ⟨0, []⟩ (-100) 1000 0 = (.error (), ⟨1, [0]⟩)
    ∧ ((⟨1, [0]⟩ : MBoard Nat) ≠ ⟨0, []⟩)
    ∧ (quiescenceS capE (fun _ => Except.ok 0) ⟨0, []⟩ (-100) 1000 0).2
        = (⟨0, []⟩ : MBoard Nat) := by
  decide

/-! ## The controller never passes a previous-best hint -/

theorem idFinish_log (E : Engine Pos Move) (b : Pos) (allowed_moves : Option (List Move))
    (now : Q2) (completedRev : List (Nat × Move × Q2)) (log : List (Nat × Option Move)) :
    (idFinish E b allowed_moves now completedRev log).log = log := by
  cases completedRev <;> rfl

theorem idGo_log (E : Engine Pos Move) [DecidableEq Move] (dur : Nat → Q2) (b : Pos)
    (allowed_moves : Option (List Move)) (budget : Q2) (maxD : Nat) :
    ∀ (fuel d : Nat) (now : Q2) (comp : List (Nat × Move × Q2))
      (best prevB : Option Move) (pv : Nat) (log : List (Nat × Option Move)),
      (∀ p ∈ log, p.2 = none) →
      ∀ p ∈ (idGo E dur b allowed_moves budget maxD fuel d now comp best prevB pv log).log,
        p.2 = (none : Option Move) := by
  intro fuel
  induction fuel with
  | zero =>
    intro d now comp best prevB pv log h p hp
    rw [idGo, idFinish_log] at hp
    exact h p hp
  | succ f ih =>
    intro d now comp best prevB pv log h p hp
    have hlog2 : ∀ q ∈ (d, (none : Option Move)) :: log, q.2 = (none : Option Move) := by
      intro q hq
      rcases List.mem_cons.mp hq with rfl | hq2
      · rfl
      · exact h q hq2
    simp only [idGo] at hp
    rcases hgate : idGate E b budget now (budget * SAFETY_MARGIN - now) comp best prevB pv
      with _ | pv2 <;> rw [hgate] at hp <;> dsimp only at hp <;>
      split_ifs at hp <;>
      first
      | (rw [idFinish_log] at hp; exact h p hp)
      | (rw [idFinish_log] at hp; exact hlog2 p hp)
      | exact hlog2 p hp
      | exact ih (d + 1) _ _ _ _ _ _ hlog2 p hp

/-- C3 (amended): the Controller never supplies a move-ordering hint: every
`pick_move` invocation it makes passes prev_best = None (the call at
iterativeDeepening.py line 199 omits the argument), at every depth,
including depths after a completed iteration; the previous best move is used
only for PV-stability tracking. -/
theorem C3_controller_no_hint (E : Engine Pos Move) [DecidableEq Move] (dur : Nat → Q2)
    (b : Pos) (allowed_moves : Option (List Move)) (remaining_time increment : Q2)
    (max_depth : Option Nat) :
    ∀ p ∈ (iterativeDeepen E dur b allowed_moves remaining_time increment max_depth).log,
      p.2 = (none : Option Move) := by
  intro p hp
  simp only [iterativeDeepen] at hp
  split_ifs at hp <;>
    exact idGo_log E dur b allowed_moves _ _ _ _ _ _ _ _ _ _
      (by intro q hq; cases hq) p hp

/-- C3 (witness): in a run completing depths 1 and 2, the depth-2 invocation
recorded in the log carries the hint argument None. -/
theorem C3_controller_no_hint_witness :
    (2, (none : Option Nat)) ∈ (iterativeDeepen oneE (fun _ => 0) 0 none 60 0 (some 2)).log
    ∧ ((2, (none : Option Nat)) : Nat × Option Nat).2 = none :=
  ⟨by decide,
    C3_controller_no_hint oneE (fun _ => 0) 0 none 60 0 (some 2) (2, none) (by decide)⟩

/-- C3 (counterexample): depth 1 completes with best move 7, yet the depth-2
invocation of `pick_move` is made with prev_best = None rather than
some 7 — the controller call site omits the hint argument. -/
theorem C3_controller_no_hint_counterexample :
    completedMoveAt (iterativeDeepen oneE (fun _ => 0) 0 none 60 0 (some 2)).completed 1
      = some 7
    ∧ (iterativeDeepen oneE (fun _ => 0) 0 none 60 0 (some 2)).log = [(2, none), (1, none)]
    ∧ some 7 ≠ (none : Option Nat) := by
  decide

/-! ## Transfer of Q2 arithmetic to ℚ -/

theorem Q2.den_ne (x : Q2) : ((x.den : ℚ)) ≠ 0 := by
  have : (0 : ℚ) < (x.den : ℚ) := by exact_mod_cast x.dpos
  exact ne_of_gt this

theorem Q2.toRat_le (x y : Q2) : x ≤ y ↔ x.toRat ≤ y.toRat := by
  show Q2.le x y ↔ _
  rw [Q2.le, Q2.toRat, Q2.toRat,
    div_le_div_iff₀ (by exact_mod_cast x.dpos) (by exact_mod_cast y.dpos)]
  constructor <;> intro h <;> exact_mod_cast h

theorem Q2.toRat_lt (x y : Q2) : x < y ↔ x.toRat < y.toRat := by
  show Q2.lt x y ↔ _
  rw [Q2.lt, Q2.toRat, Q2.toRat,
    div_lt_div_iff₀ (by exact_mod_cast x.dpos) (by exact_mod_cast y.dpos)]
  constructor <;> intro h <;> exact_mod_cast h

theorem Q2.toRat_add (x y : Q2) : (x + y).toRat = x.toRat + y.toRat := by
  show (Q2.add x y).toRat = _
  rw [Q2.add, Q2.toRat, Q2.toRat, Q2.toRat]
  have hx := Q2.den_ne x
  have hy := Q2.den_ne y
  push_cast
  field_simp

theorem Q2.toRat_neg (x : Q2) : (-x).toRat = -x.toRat := by
  show (Q2.neg x).toRat = _
  rw [Q2.neg, Q2.toRat, Q2.toRat]
  push_cast
  ring

theorem Q2.toRat_sub (x y : Q2) : (x - y).toRat = x.toRat - y.toRat := by
  show (Q2.add x (Q2.neg y)).toRat = _
  have h := Q2.toRat_add x (-y)
  rw [Q2.toRat_neg] at h
  exact h.trans (by ring)

theorem Q2.toRat_mul (x y : Q2) : (x * y).toRat = x.toRat * y.toRat := by
  show (Q2.mul x y).toRat = _
  rw [Q2.mul, Q2.toRat, Q2.toRat, Q2.toRat]
  have hx := Q2.den_ne x
  have hy := Q2.den_ne y
  push_cast
  field_simp

theorem toRat_qmax (x y : Q2) : (qmax x y).toRat = max x.toRat y.toRat := by
  rw [qmax]
  split_ifs with h
  · rw [max_eq_right (le_of_lt ((Q2.toRat_lt x y).mp h))]
  · rw [max_eq_left (not_lt.mp ((Q2.toRat_lt x y).not.mp h))]

theorem toRat_qmin (x y : Q2) : (qmin x y).toRat = min x.toRat y.toRat := by
  rw [qmin]
  split_ifs with h
  · rw [min_eq_right (le_of_lt ((Q2.toRat_lt y x).mp h))]
  · rw [min_eq_left (not_lt.mp ((Q2.toRat_lt y x).not.mp h))]

theorem Q2.toRat_ofInt (n : Int) : (Q2.ofInt n).toRat = (n : ℚ) := by
  rw [Q2.ofInt, Q2.toRat]
  norm_num

theorem Q2.toRat_ofFrac (n d : Int) (h : 0 < d) :
    (Q2.ofFrac n d).toRat = (n : ℚ) / (d : ℚ) := by
  rw [Q2.ofFrac, dif_pos h, Q2.toRat]

/-! ## Time safety of the controller -/

theorem calc_time_bounds (E : Engine Pos Move) (remaining increment : Q2) (b : Pos)
    (h : PANIC_THRESHOLD < remaining) :
    (1 : ℚ) ≤ (calculate_time_allocation E remaining increment b none).toRat
    ∧ (calculate_time_allocation E remaining increment b none).toRat
        ≤ remaining.toRat - 2 := by
  have h5 : PANIC_THRESHOLD.toRat = 5 := by
    rw [PANIC_THRESHOLD, Q2.toRat_ofInt]
    norm_num
  have hrem : (5 : ℚ) < remaining.toRat := by
    have := (Q2.toRat_lt _ _).mp h
    rwa [h5] at this
  have hpan : ¬ (remaining < PANIC_THRESHOLD) := by
    intro hc
    have h6 := (Q2.toRat_lt _ _).mp hc
    rw [h5] at h6
    exact lt_asymm hrem h6
  have hM : MIN_MOVE_TIME.toRat = 1 := by
    rw [MIN_MOVE_TIME, Q2.toRat_ofInt]
    norm_num
  have h2q : ((2 : Q2)).toRat = 2 := by
    rw [show (2 : Q2) = Q2.ofInt 2 from rfl, Q2.toRat_ofInt]
    norm_num
  simp only [calculate_time_allocation]
  rw [if_neg hpan]
  clear hpan h
  constructor
  · rw [toRat_qmax, hM]
    exact le_max_left 1 _
  · rw [toRat_qmax, toRat_qmin, hM]
    apply max_le
    · linarith
    · exact le_trans (min_le_right _ _) (by rw [Q2.toRat_sub, h2q])

theorem idFinish_elapsed (E : Engine Pos Move) (b : Pos)
    (allowed_moves : Option (List Move)) (now : Q2)
    (completedRev : List (Nat × Move × Q2)) (log : List (Nat × Option Move)) :
    (idFinish E b allowed_moves now completedRev log).elapsed = now := by
  cases completedRev <;> rfl

theorem idStep_bound (budget now d0 : Q2)
    (hns : ¬ (budget * SAFETY_MARGIN - now < MIN_SLACK_TO_START))
    (hd : d0.toRat ≤ MIN_SLACK_TO_START.toRat) :
    (now + d0).toRat ≤ budget.toRat * SAFETY_MARGIN.toRat := by
  have h1 : MIN_SLACK_TO_START.toRat ≤ (budget * SAFETY_MARGIN - now).toRat :=
    not_lt.mp ((Q2.toRat_lt _ _).not.mp hns)
  rw [Q2.toRat_sub, Q2.toRat_mul] at h1
  rw [Q2.toRat_add]
  clear hns
  linarith

theorem idGo_elapsed (E : Engine Pos Move) [DecidableEq Move] (dur : Nat → Q2)
    (b : Pos) (allowed_moves : Option (List Move)) (budget : Q2) (maxD : Nat)
    (hdur : ∀ d, (dur d).toRat ≤ MIN_SLACK_TO_START.toRat) :
    ∀ (fuel d : Nat) (now : Q2) (comp : List (Nat × Move × Q2))
      (best prevB : Option Move) (pv : Nat) (log : List (Nat × Option Move)),
      now.toRat ≤ budget.toRat * SAFETY_MARGIN.toRat →
      (idGo E dur b allowed_moves budget maxD fuel d now comp
          best prevB pv log).elapsed.toRat
        ≤ budget.toRat * SAFETY_MARGIN.toRat := by
  intro fuel
  induction fuel with
  | zero =>
    intro d now comp best prevB pv log hnow
    simp only [idGo, idFinish_elapsed]
    exact hnow
  | succ f ih =>
    intro d now comp best prevB pv log hnow
    simp only [idGo]
    rcases hgate : idGate E b budget now (budget * SAFETY_MARGIN - now) comp best prevB pv
      with _ | pv2 <;>
      · dsimp only
        split_ifs <;>
          first
          | (rw [idFinish_elapsed]; exact hnow)
          | (rw [idFinish_elapsed]; apply idStep_bound <;> first | assumption | exact hdur _)
          | (apply idStep_bound <;> first | assumption | exact hdur _)
          | (apply ih
             apply idStep_bound <;> first | assumption | exact hdur _)

/-- C10 (amended): wall-clock time is checked only at depth boundaries, so
when every blocking depth search completes within the minimum launch slack
MIN_SLACK_TO_START (0.75 s), the Controller's total elapsed wall time for a
non-panic call (remaining_time above the panic threshold) stays under
remaining_time minus the 2.0-second reserve — indeed under budget times
SAFETY_MARGIN.  Without that per-depth bound a single in-flight depth can
overrun arbitrarily (see the counterexample). -/
theorem C10_controller_time (E : Engine Pos Move) [DecidableEq Move] (dur : Nat → Q2)
    (b : Pos) (allowed_moves : Option (List Move)) (remaining increment : Q2)
    (max_depth : Option Nat)
    (hrem : PANIC_THRESHOLD < remaining)
    (hdur : ∀ d : Nat, (dur d).toRat ≤ MIN_SLACK_TO_START.toRat) :
    (iterativeDeepen E dur b allowed_moves remaining increment max_depth).elapsed.toRat
      < remaining.toRat - 2 := by
  have h5 : PANIC_THRESHOLD.toRat = 5 := by
    rw [PANIC_THRESHOLD, Q2.toRat_ofInt]
    norm_num
  have hrem2 : (5 : ℚ) < remaining.toRat := by
    have := (Q2.toRat_lt _ _).mp hrem
    rwa [h5] at this
  have hpan : ¬ (remaining < PANIC_THRESHOLD) := by
    intro hc
    have h6 := (Q2.toRat_lt _ _).mp hc
    rw [h5] at h6
    exact lt_asymm hrem2 h6
  have hSM : SAFETY_MARGIN.toRat = 88 / 100 := by
    rw [SAFETY_MARGIN, Q2.toRat_ofFrac 88 100 (by norm_num)]
    norm_num
  have h0q : ((0 : Q2)).toRat = 0 := by
    rw [show (0 : Q2) = Q2.ofInt 0 from rfl, Q2.toRat_ofInt]
    norm_num
  obtain ⟨hB1, hB2⟩ := calc_time_bounds E remaining increment b hrem
  have h0 : ((0 : Q2)).toRat
      ≤ (calculate_time_allocation E remaining increment b none).toRat
        * SAFETY_MARGIN.toRat := by
    rw [h0q, hSM]
    clear hrem hpan
    nlinarith [hB1]
  simp only [iterativeDeepen]
  rw [if_neg hpan]
  refine lt_of_le_of_lt
    (idGo_elapsed E dur b allowed_moves _ _ hdur _ _ _ _ _ _ _ _ h0) ?_
  rw [hSM]
  clear hrem hpan
  linarith

/-- C10 (witness): with every depth taking half a second and 60 seconds on
the clock, the elapsed time stays under 58 seconds. -/
theorem C10_controller_time_witness :
    (PANIC_THRESHOLD < (60 : Q2)
      ∧ ∀ d : Nat, ((fun _ : Nat => Q2.ofFrac 1 2) d).toRat ≤ MIN_SLACK_TO_START.toRat)
    ∧ (iterativeDeepen oneE (fun _ : Nat => Q2.ofFrac 1 2) 0 none 60 0
        (some 2)).elapsed.toRat < ((60 : Q2)).toRat - 2 :=
  have hd : ∀ d : Nat, ((fun _ : Nat => Q2.ofFrac 1 2) d).toRat ≤ MIN_SLACK_TO_START.toRat :=
    fun _ => by
      rw [Q2.toRat_ofFrac 1 2 (by norm_num), MIN_SLACK_TO_START,
        Q2.toRat_ofFrac 75 100 (by norm_num)]
      norm_num
  ⟨⟨by decide, hd⟩,
    C10_controller_time oneE (fun _ : Nat => Q2.ofFrac 1 2) 0 none 60 0 (some 2)
      (by decide) hd⟩

/-- C10 (counterexample): a single depth-1 search taking 100 seconds with 60
seconds remaining cannot be interrupted, so the call's elapsed time (100 s)
exceeds remaining_time minus the reserve (58 s) even though remaining_time
is far above the panic threshold. -/
theorem C10_controller_time_counterexample :
    PANIC_THRESHOLD < (60 : Q2)
    ∧ ¬ ((iterativeDeepen oneE (fun _ : Nat => (100 : Q2)) 0 none 60 0
          (some 1)).elapsed < (60 : Q2) - 2)
    ∧ (iterativeDeepen oneE (fun _ : Nat => (100 : Q2)) 0 none 60 0
        (some 1)).elapsed.num = 100 := by
  decide

end Engine2025
